import Mathlib

/-!
# LG UltraFine brightness control: session management and value mapping

A shallow embedding of `LG-Ultrafine-Brightness-Control.cpp`:

* the two inline range conversions (slider position to native brightness in the
  `WM_HSCROLL` handler, native brightness to slider position in
  `updateDeviceConnection`), with the `double` arithmetic of the source modelled as
  IEEE-754 binary64 (round to nearest, ties to even) over exact rationals;
* `setBrightness`, `getBrightness` and `updateDeviceConnection` as state-passing
  functions over the global `deviceHandle`, the two controls they update and a
  chronological trace of the hidapi calls they make.

Diagnostic output (`OutputDebugStringW`) is not part of the modelled state.
-/

namespace LGUltrafine

/-! ## Constants -/

/-- The constant `VENDOR_ID = 0x43e`. -/
def VENDOR_ID : ℕ := 0x43e

/-- The constant `PRODUCT_ID = 0x9a40` (declared, never used for matching). -/
def PRODUCT_ID : ℕ := 0x9a40

/-- The constant `MAX_BRIGHTNESS = 0xd2f0`. -/
def MAX_BRIGHTNESS : ℕ := 0xd2f0

/-- The constant `MIN_BRIGHTNESS = 0x0190`. -/
def MIN_BRIGHTNESS : ℕ := 0x0190

/-! ## IEEE-754 binary64 arithmetic on exact rationals

Every finite `double` is a rational number, and each arithmetic operation of the source
returns the exact rational result rounded to the nearest value with a 53-bit significand
(ties to even), with no fused multiply-add and no extended intermediate precision.  The
exponent range is not modelled: the magnitudes that occur for a 32-bit `int` slider
position and a 16-bit brightness lie between `2^-7` and `2^41`, far from overflow and
from the subnormal range. -/

/-- Helper for `natLog2`: with enough fuel, the position of the highest set bit. -/
def log2Fuel : ℕ → ℕ → ℕ
  | 0, _ => 0
  | fuel + 1, n => if n < 2 then 0 else log2Fuel fuel (n / 2) + 1

/-- Floor of the base-2 logarithm of a positive natural number. -/
def natLog2 (n : ℕ) : ℕ := log2Fuel n n

/-- Floor of the base-2 logarithm of `|q|` for a nonzero rational `q`: the binary
exponent of `q`. -/
def ilog2 (q : ℚ) : ℤ :=
  let l : ℤ := (natLog2 q.num.natAbs : ℤ) - (natLog2 q.den : ℤ)
  if (2 : ℚ) ^ l ≤ |q| then l else l - 1

/-- Round a rational to the nearest integer, ties to the even neighbour. -/
def roundHalfEven (q : ℚ) : ℤ :=
  let f := ⌊q⌋
  if q - f < 1 / 2 then f
  else if 1 / 2 < q - f then f + 1
  else if f % 2 = 0 then f else f + 1

/-- Round an exact result to binary64: keep 53 significant bits, round to nearest,
ties to even. -/
def binary64 (q : ℚ) : ℚ :=
  if q = 0 then 0
  else
    let e := ilog2 q - 52
    (roundHalfEven (q / 2 ^ e) : ℚ) * 2 ^ e

/-- Conversion of a `double` to an integer type discards the fractional part
(rounds toward zero). -/
def truncate (q : ℚ) : ℤ := if 0 ≤ q then ⌊q⌋ else ⌈q⌉

/-! ## Range conversions -/

/-- The `WM_HSCROLL` computation
`static_cast<uint16_t>((pos / 100.0) * (MAX_BRIGHTNESS - MIN_BRIGHTNESS) + MIN_BRIGHTNESS)`:
a division, a multiplication and an addition in `double`, each rounded, then the
conversion to `uint16_t`.  The language defines that conversion only when the truncated
value fits in 16 bits, as it does for the slider range 0..100; outside it the model
wraps modulo `2^16`. -/
def brightnessValue (pos : ℤ) : ℕ :=
  let ratio := binary64 ((pos : ℚ) / 100)
  let scaled := binary64 (ratio * (((MAX_BRIGHTNESS : ℤ) - (MIN_BRIGHTNESS : ℤ) : ℤ) : ℚ))
  let shifted := binary64 (scaled + (MIN_BRIGHTNESS : ℚ))
  (truncate shifted % 2 ^ 16).toNat

/-- The `updateDeviceConnection` computation
`static_cast<int>((currentBrightness - MIN_BRIGHTNESS) * 100.0 / (MAX_BRIGHTNESS - MIN_BRIGHTNESS))`
followed by `max(0, min(sliderPos, 100))`.  The subtraction is done in `int` (the
16-bit operands are promoted), the product and the quotient in `double`. -/
def sliderPos (currentBrightness : ℕ) : ℤ :=
  let diff : ℤ := ((currentBrightness % 2 ^ 16 : ℕ) : ℤ) - (MIN_BRIGHTNESS : ℤ)
  let product := binary64 ((diff : ℚ) * 100)
  let quotient := binary64 (product / (((MAX_BRIGHTNESS : ℤ) - (MIN_BRIGHTNESS : ℤ) : ℤ) : ℚ))
  let pos := truncate quotient
  max 0 (min pos 100)

/-! ## HID transport and program state -/

/-- A non-null `hid_device*`; the null pointer is `none` in `Option Handle`. -/
abbrev Handle := ℕ

/-- The fields of hidapi's enumeration record that the program reads.  The product
string is taken to be a valid (non-null) wide string, as `wcsstr` requires. -/
structure hid_device_info where
  path : String
  vendor_id : ℕ
  product_string : List Char
  deriving DecidableEq

/-- The behaviour of the hidapi library during one operation of the program:
the list `hid_enumerate(0, 0)` returns (in host order), the result of
`hid_open_path` (`none` is the null pointer), the bytes `hid_get_feature_report`
stores in the buffer (`none` is a negative return value) and whether
`hid_send_feature_report` succeeds. -/
structure Hid where
  enumerate : List hid_device_info
  open_path : String → Option Handle
  get_feature_report : Handle → Option (List ℕ)
  send_feature_report : Handle → List ℕ → Bool

/-- One call into hidapi, with its arguments and its result. -/
inductive Event where
  | hid_close (h : Handle)
  | hid_enumerate
  | hid_open_path (path : String) (result : Option Handle)
  | hid_get_feature_report (h : Handle) (result : Option (List ℕ))
  | hid_send_feature_report (h : Handle) (data : List ℕ) (ok : Bool)
  | hid_free_enumeration
  deriving DecidableEq

/-- The mutable state the three operations touch: the global `deviceHandle`, the text of
the status label, the enabled flag and position of the slider, and the hidapi calls made
so far, oldest first. -/
structure World where
  deviceHandle : Option Handle
  statusLabel : String
  sliderEnabled : Bool
  sliderPosition : ℤ
  trace : List Event

/-- The state after `WM_CREATE` has built the controls and before its first call of
`updateDeviceConnection`: no handle, slider disabled. -/
def World.initial : World :=
  { deviceHandle := none
    statusLabel := "Monitoring monitor connection..."
    sliderEnabled := false
    sliderPosition := 0
    trace := [] }

/-- Which of the three branches of `updateDeviceConnection` ran: the device was opened
(status `Current Brightness: n%`, slider enabled at position `n`), the matching path
could not be opened (status `Unable to connect to monitor.`), or no matching device was
enumerated (status `Monitor disconnected.`). -/
inductive ConnectionOutcome where
  | Connected (percent : ℤ)
  | OpenFailed
  | NotFound
  deriving DecidableEq

/-! ## Operations -/

/-- The 7-byte buffer `setBrightness` sends: report id 0, low byte, high byte, four
zero bytes. -/
def setReport (value : ℕ) : List ℕ :=
  [0x00, (value &&& 0x00FF) % 2 ^ 8, ((value >>> 8) &&& 0x00FF) % 2 ^ 8, 0x00, 0x00, 0x00, 0x00]

/-- The function `setBrightness(uint16_t value)`. -/
def setBrightness (hid : Hid) (value : ℕ) (w : World) : World :=
  let value := value % 2 ^ 16
  match w.deviceHandle with
  | none => w
  | some h =>
    let data := setReport value
    { w with trace := w.trace ++ [Event.hid_send_feature_report h data
                                    (hid.send_feature_report h data)] }

/-- The buffer `uint8_t data[7] = { 0 }` after `hid_get_feature_report` stored `bytes`
in it: bytes not written keep their initial zero. -/
def readBuffer (bytes : List ℕ) : List ℕ :=
  (List.range 7).map fun i => bytes.getD i 0 % 2 ^ 8

/-- The value `data[1] + (data[2] << 8)` that `getBrightness` returns as `uint16_t`. -/
def decodeReport (bytes : List ℕ) : ℕ :=
  let data := readBuffer bytes
  (data.getD 1 0 + (data.getD 2 0 <<< 8)) % 2 ^ 16

/-- The function `getBrightness()`: the new state and the returned value. -/
def getBrightness (hid : Hid) (w : World) : World × ℕ :=
  match w.deviceHandle with
  | none => (w, MIN_BRIGHTNESS)
  | some h =>
    let result := hid.get_feature_report h
    let w1 := { w with trace := w.trace ++ [Event.hid_get_feature_report h result] }
    match result with
    | none => (w1, MIN_BRIGHTNESS)
    | some bytes => (w1, decodeReport bytes)

/-- Whether `needle` is an initial segment of `hay`. -/
def startsWith : List Char → List Char → Bool
  | _, [] => true
  | [], _ :: _ => false
  | c :: cs, n :: ns => c == n && startsWith cs ns

/-- The C library function `wcsstr`: the suffix of `hay` starting at the first
occurrence of `needle`, or `none` (the null pointer) when there is none. -/
def wcsstr : List Char → List Char → Option (List Char)
  | [], needle => if startsWith [] needle then some [] else none
  | c :: cs, needle =>
    if startsWith (c :: cs) needle then some (c :: cs) else wcsstr cs needle

/-- The condition of the discovery loop:
`vendor_id == VENDOR_ID && wcsstr(product_string, L"BRIGHTNESS")`. -/
def isMonitor (d : hid_device_info) : Bool :=
  d.vendor_id == VENDOR_ID && (wcsstr d.product_string "BRIGHTNESS".toList).isSome

/-- The discovery loop of `updateDeviceConnection`: walk the enumeration in order and
stop at the first matching entry; `none` is `monitorPath == nullptr`. -/
def monitorPath : List hid_device_info → Option String
  | [] => none
  | currentDevice :: next =>
    if isMonitor currentDevice then some currentDevice.path else monitorPath next

/-- The first statement of `updateDeviceConnection`: close and forget an open handle. -/
def closeDevice (w : World) : World :=
  match w.deviceHandle with
  | some h => { w with deviceHandle := none, trace := w.trace ++ [Event.hid_close h] }
  | none => w

/-- The rest of `updateDeviceConnection`, from `hid_enumerate` to
`hid_free_enumeration`. -/
def connectDevice (hid : Hid) (w : World) : World × ConnectionOutcome :=
  let devices := hid.enumerate
  let w := { w with trace := w.trace ++ [Event.hid_enumerate] }
  match monitorPath devices with
  | some path =>
    let opened := hid.open_path path
    let w := { w with deviceHandle := opened,
                      trace := w.trace ++ [Event.hid_open_path path opened] }
    match opened with
    | some _ =>
      let w := { w with statusLabel := "Monitor connected.", sliderEnabled := true }
      let (w, currentBrightness) := getBrightness hid w
      let pos := sliderPos currentBrightness
      let w := { w with sliderPosition := pos,
                        statusLabel := "Current Brightness: " ++ toString pos ++ "%" }
      ({ w with trace := w.trace ++ [Event.hid_free_enumeration] },
        ConnectionOutcome.Connected pos)
    | none =>
      let w := { w with statusLabel := "Unable to connect to monitor.",
                        sliderEnabled := false }
      ({ w with trace := w.trace ++ [Event.hid_free_enumeration] },
        ConnectionOutcome.OpenFailed)
  | none =>
    let w := { w with statusLabel := "Monitor disconnected.", sliderEnabled := false }
    ({ w with trace := w.trace ++ [Event.hid_free_enumeration] },
      ConnectionOutcome.NotFound)

/-- The function `updateDeviceConnection(statusLabel, slider)`: the new state and the
branch that ran. -/
def updateDeviceConnection (hid : Hid) (w : World) : World × ConnectionOutcome :=
  connectDevice hid (closeDevice w)

/-- The `WM_HSCROLL` case of `windowProcedure` for a message from the slider at
position `pos`. -/
def onHScroll (hid : Hid) (pos : ℤ) (w : World) : World :=
  let w := setBrightness hid (brightnessValue pos) w
  { w with statusLabel := "Current Brightness: " ++ toString pos ++ "%" }

/-- One operation on the session, together with the behaviour of hidapi while it runs. -/
inductive Op where
  | refresh (hid : Hid)
  | get (hid : Hid)
  | set (hid : Hid) (value : ℕ)

/-- Run one operation. -/
def Op.run : Op → World → World
  | Op.refresh hid, w => (updateDeviceConnection hid w).1
  | Op.get hid, w => (getBrightness hid w).1
  | Op.set hid value, w => setBrightness hid value w

/-- Run a sequence of operations, first to last. -/
def runOps (ops : List Op) (w : World) : World :=
  ops.foldl (fun w op => op.run w) w

/-! ## Properties of traces -/

/-- The handles that are open after `events`, given the handles `opened` open before:
a successful `hid_open_path` adds its handle, `hid_close` removes one. -/
def openHandles (opened : List Handle) : List Event → List Handle
  | [] => opened
  | Event.hid_close h :: rest => openHandles (opened.erase h) rest
  | Event.hid_open_path _ (some h) :: rest => openHandles (opened ++ [h]) rest
  | _ :: rest => openHandles opened rest

/-- No call of `hid_open_path` in `events` is made while a handle is open, given the
handles `opened` open before `events`. -/
def OpensOnlyWhenClosed (opened : List Handle) (events : List Event) : Prop :=
  ∀ before path result after,
    events = before ++ Event.hid_open_path path result :: after →
      openHandles opened before = []

/-- The hidapi calls `connectDevice` makes after `hid_enumerate`, by branch. -/
def connectEvents (hid : Hid) : List Event :=
  match monitorPath hid.enumerate with
  | none => [Event.hid_free_enumeration]
  | some path =>
    match hid.open_path path with
    | none => [Event.hid_open_path path none, Event.hid_free_enumeration]
    | some h => [Event.hid_open_path path (some h),
        Event.hid_get_feature_report h (hid.get_feature_report h), Event.hid_free_enumeration]

/-- The session invariant: the handles the trace leaves open are exactly the stored
handle, and no open was attempted while a handle was open. -/
def SessionInvariant (w : World) : Prop :=
  openHandles [] w.trace = w.deviceHandle.toList ∧ OpensOnlyWhenClosed [] w.trace

/-- An enumerated entry qualifies when its vendor id is `0x043E` and its product string
contains `BRIGHTNESS`. -/
def Qualifies (d : hid_device_info) : Prop :=
  d.vendor_id = 0x043E ∧ ∃ s t, d.product_string = s ++ "BRIGHTNESS".toList ++ t

/-- The conversion as the specification words it:
`clamp(round((b - MIN_BRIGHTNESS) * 100 / (MAX_BRIGHTNESS - MIN_BRIGHTNESS)), 0, 100)`
in exact arithmetic, with rounding to the nearest integer. -/
def specPercent (b : ℕ) : ℤ :=
  max 0 (min (round ((((b : ℚ) - MIN_BRIGHTNESS) * 100) /
    ((MAX_BRIGHTNESS : ℚ) - MIN_BRIGHTNESS))) 100)

/-! ## Scenarios -/

/-- The enumeration of the scenario: one device with the matching signature. -/
def scenarioDevices : List hid_device_info :=
  [{ path := "P1", vendor_id := 0x043E, product_string := "LG BRIGHTNESS ABC".toList }]

/-- A transport on which `P1` opens as handle 1 and every read returns `bytes`. -/
def scenarioHid (bytes : List ℕ) : Hid :=
  { enumerate := scenarioDevices
    open_path := fun _ => some 1
    get_feature_report := fun _ => some bytes
    send_feature_report := fun _ _ => true }

/-- A state with handle 7 open. -/
def openWorld : World := { World.initial with deviceHandle := some 7 }

/-! ## Binary64 rounding lemmas -/

theorem log2Fuel_spec : ∀ fuel n : ℕ, n ≤ fuel → n ≠ 0 →
    2 ^ log2Fuel fuel n ≤ n ∧ n < 2 ^ (log2Fuel fuel n + 1) := by
  intro fuel
  induction fuel with
  | zero => intro n h h0; omega
  | succ k ih =>
    intro n h h0
    unfold log2Fuel
    split_ifs with h2
    · constructor <;> simp <;> omega
    · have hk : n / 2 ≤ k := by omega
      have hn : n / 2 ≠ 0 := by omega
      obtain ⟨h3, h4⟩ := ih (n / 2) hk hn
      constructor
      · rw [pow_succ]; omega
      · rw [pow_succ]; omega

theorem natLog2_le (n : ℕ) (h : n ≠ 0) : 2 ^ natLog2 n ≤ n :=
  (log2Fuel_spec n n le_rfl h).1

theorem natLog2_lt (n : ℕ) (h : n ≠ 0) : n < 2 ^ (natLog2 n + 1) :=
  (log2Fuel_spec n n le_rfl h).2

/-- The binary exponent is a lower bound: `2 ^ ilog2 q ≤ |q|`. -/
theorem ilog2_le (q : ℚ) (hq : q ≠ 0) : (2 : ℚ) ^ ilog2 q ≤ |q| := by
  unfold ilog2
  simp only
  split_ifs with h
  · exact h
  · have hnum : q.num.natAbs ≠ 0 := by
      simpa [Int.natAbs_eq_zero] using hq
    have hden : q.den ≠ 0 := q.den_nz
    have h1 := natLog2_le _ hnum
    have h2 := natLog2_lt _ hden
    have habs : |q| = (q.num.natAbs : ℚ) / (q.den : ℚ) := by
      conv_lhs => rw [← Rat.num_div_den q]
      rw [abs_div, Nat.abs_cast, Nat.cast_natAbs, Int.cast_abs]
    rw [habs]
    have hd : (0 : ℚ) < q.den := by exact_mod_cast Nat.pos_of_ne_zero hden
    rw [le_div_iff₀ hd]
    have e1 : ((natLog2 q.num.natAbs : ℤ) - (natLog2 q.den : ℤ) - 1) =
        (natLog2 q.num.natAbs : ℤ) - ((natLog2 q.den + 1 : ℕ) : ℤ) := by push_cast; ring
    rw [e1, zpow_sub₀ (by norm_num), zpow_natCast, zpow_natCast]
    have h1q : ((2:ℚ)) ^ natLog2 q.num.natAbs ≤ (q.num.natAbs : ℚ) := by exact_mod_cast h1
    have h2q : (q.den : ℚ) ≤ (2:ℚ) ^ (natLog2 q.den + 1) := by exact_mod_cast h2.le
    have hp : (0:ℚ) < 2 ^ (natLog2 q.den + 1) := by positivity
    calc (2:ℚ) ^ natLog2 q.num.natAbs / 2 ^ (natLog2 q.den + 1) * q.den
        ≤ (2:ℚ) ^ natLog2 q.num.natAbs / 2 ^ (natLog2 q.den + 1) * 2 ^ (natLog2 q.den + 1) := by
          apply mul_le_mul_of_nonneg_left h2q; positivity
      _ = (2:ℚ) ^ natLog2 q.num.natAbs := by field_simp
      _ ≤ _ := h1q

/-- The binary exponent is exact: `|q| < 2 ^ (ilog2 q + 1)`. -/
theorem ilog2_lt (q : ℚ) (hq : q ≠ 0) : |q| < (2 : ℚ) ^ (ilog2 q + 1) := by
  unfold ilog2
  simp only
  split_ifs with h
  · have hnum : q.num.natAbs ≠ 0 := by
      simpa [Int.natAbs_eq_zero] using hq
    have hden : q.den ≠ 0 := q.den_nz
    have h1 := natLog2_lt _ hnum
    have h2 := natLog2_le _ hden
    have habs : |q| = (q.num.natAbs : ℚ) / (q.den : ℚ) := by
      conv_lhs => rw [← Rat.num_div_den q]
      rw [abs_div, Nat.abs_cast, Nat.cast_natAbs, Int.cast_abs]
    rw [habs]
    have hd : (0 : ℚ) < q.den := by exact_mod_cast Nat.pos_of_ne_zero hden
    rw [div_lt_iff₀ hd]
    have e1 : ((natLog2 q.num.natAbs : ℤ) - (natLog2 q.den : ℤ) + 1) =
        ((natLog2 q.num.natAbs + 1 : ℕ) : ℤ) - (natLog2 q.den : ℤ) := by push_cast; ring
    rw [e1, zpow_sub₀ (by norm_num), zpow_natCast, zpow_natCast]
    have h1q : (q.num.natAbs : ℚ) < (2 : ℚ) ^ (natLog2 q.num.natAbs + 1) := by exact_mod_cast h1
    have h2q : (2 : ℚ) ^ natLog2 q.den ≤ (q.den : ℚ) := by exact_mod_cast h2
    have hp : (0 : ℚ) < 2 ^ natLog2 q.den := by positivity
    calc (q.num.natAbs : ℚ) < (2 : ℚ) ^ (natLog2 q.num.natAbs + 1) := h1q
      _ = (2 : ℚ) ^ (natLog2 q.num.natAbs + 1) / 2 ^ natLog2 q.den * 2 ^ natLog2 q.den := by
          field_simp
      _ ≤ (2 : ℚ) ^ (natLog2 q.num.natAbs + 1) / 2 ^ natLog2 q.den * q.den := by
          apply mul_le_mul_of_nonneg_left h2q; positivity
  · rw [sub_add_cancel]
    exact lt_of_not_le h

theorem roundHalfEven_err (x : ℚ) : |(roundHalfEven x : ℚ) - x| ≤ 1 / 2 := by
  have h1 := Int.floor_le x
  have h2 := Int.lt_floor_add_one x
  unfold roundHalfEven
  simp only
  rw [abs_le]
  split_ifs with a b c
  · constructor <;> linarith
  · push_cast; constructor <;> linarith
  · constructor <;> linarith
  · push_cast; constructor <;> linarith

theorem roundHalfEven_intCast (n : ℤ) : roundHalfEven (n : ℚ) = n := by
  unfold roundHalfEven
  simp

/-- Rounding to binary64 has relative error at most `2 ^ -53`. -/
theorem binary64_err (q : ℚ) : |binary64 q - q| ≤ |q| / 2 ^ 53 := by
  unfold binary64
  split_ifs with h0
  · simp [h0]
  · simp only
    set e := ilog2 q - 52 with he
    have hpos : (0 : ℚ) < 2 ^ e := by positivity
    have hr := roundHalfEven_err (q / 2 ^ e)
    have hle := ilog2_le q h0
    have h2e : (2 : ℚ) ^ e * 2 ^ (52 : ℕ) ≤ |q| := by
      have : (2 : ℚ) ^ e * 2 ^ (52 : ℕ) = 2 ^ ilog2 q := by
        rw [he, zpow_sub₀ (by norm_num)]
        norm_num
      rw [this]; exact hle
    have key : |(roundHalfEven (q / 2 ^ e) : ℚ) * 2 ^ e - q| =
        |(roundHalfEven (q / 2 ^ e) : ℚ) - q / 2 ^ e| * 2 ^ e := by
      rw [← abs_of_pos hpos, ← abs_mul, abs_of_pos hpos]
      congr 1
      field_simp
    rw [key]
    have : |(roundHalfEven (q / 2 ^ e) : ℚ) - q / 2 ^ e| * 2 ^ e ≤ 1 / 2 * 2 ^ e :=
      mul_le_mul_of_nonneg_right hr hpos.le
    rw [le_div_iff₀ (by positivity)]
    nlinarith

/-- Integers below `2 ^ 53` in magnitude are binary64 values. -/
theorem binary64_intCast (n : ℤ) (hn : |n| < 2 ^ 53) : binary64 (n : ℚ) = n := by
  unfold binary64
  split_ifs with h0
  · exact h0.symm
  · simp only
    have hle := ilog2_le (n : ℚ) h0
    have hlt : (2 : ℚ) ^ ilog2 (n : ℚ) < 2 ^ (53 : ℤ) := by
      refine lt_of_le_of_lt hle ?_
      have : ((|n| : ℤ) : ℚ) < ((2 ^ 53 : ℤ) : ℚ) := by exact_mod_cast hn
      rw [Int.cast_abs] at this
      refine lt_of_lt_of_eq this ?_
      norm_num
    have h53 : ilog2 (n : ℚ) < 53 := (zpow_lt_zpow_iff_right₀ (by norm_num)).1 hlt
    obtain ⟨k, hk⟩ : ∃ k : ℕ, ilog2 (n : ℚ) - 52 = -(k : ℤ) :=
      ⟨(52 - ilog2 (n : ℚ)).toNat, by omega⟩
    rw [hk, zpow_neg, zpow_natCast]
    have : (n : ℚ) / ((2 : ℚ) ^ k)⁻¹ = ((n * 2 ^ k : ℤ) : ℚ) := by
      push_cast; field_simp
    rw [this, roundHalfEven_intCast]
    push_cast
    field_simp

theorem truncate_binary64_between (k : ℕ) (q : ℚ) (hk : k ≤ 123)
    (hlo : (k : ℚ) + 1 / 53600 ≤ q) (hhi : q ≤ (k : ℚ) + 53599 / 53600) :
    truncate (binary64 q) = (k : ℤ) := by
  have hkq : (k : ℚ) ≤ 123 := by exact_mod_cast hk
  have hk0 : (0 : ℚ) ≤ (k : ℚ) := Nat.cast_nonneg k
  have hqpos : 0 ≤ q := by linarith
  have herr := binary64_err q
  rw [abs_of_nonneg hqpos, abs_le] at herr
  have hsmall : q / 2 ^ 53 < 1 / 53600 := by
    rw [div_lt_iff₀ (by positivity)]
    have : q ≤ 124 := by linarith
    norm_num
    linarith
  have hlo1 : (k : ℚ) ≤ binary64 q := by linarith [herr.1]
  have hhi1 : binary64 q < (k : ℚ) + 1 := by linarith [herr.2]
  unfold truncate
  rw [if_pos (by linarith)]
  rw [Int.floor_eq_iff]
  constructor
  · exact_mod_cast hlo1
  · exact_mod_cast hhi1

/-- The `double` product and quotient of `updateDeviceConnection`, truncated, equal the
integer quotient: rounding never crosses an integer. -/
theorem truncate_quotient (n : ℕ) (hn : n ≤ 65535) :
    truncate (binary64 (binary64 (((n : ℤ) : ℚ) * 100) / ((53600 : ℤ) : ℚ))) =
      ((n * 100 / 53600 : ℕ) : ℤ) := by
  have hprod : binary64 (((n : ℤ) : ℚ) * 100) = ((n * 100 : ℕ) : ℚ) := by
    have e : (((n : ℤ) : ℚ) * 100) = (((n * 100 : ℕ) : ℤ) : ℚ) := by push_cast; ring
    rw [e, binary64_intCast]
    · push_cast; ring
    · rw [abs_of_nonneg (by positivity)]
      have : n * 100 < 2 ^ 53 := by omega
      exact_mod_cast this
  rw [hprod]
  obtain ⟨k, hk⟩ : ∃ k, k = n * 100 / 53600 := ⟨_, rfl⟩
  obtain ⟨r, hr⟩ : ∃ r, r = n * 100 % 53600 := ⟨_, rfl⟩
  rw [← hk]
  have hdm : n * 100 = 53600 * k + r := by rw [hk, hr]; exact (Nat.div_add_mod _ _).symm
  have hrlt : r < 53600 := by rw [hr]; exact Nat.mod_lt _ (by norm_num)
  have hk123 : k ≤ 123 := by omega
  have hq : ((n * 100 : ℕ) : ℚ) / ((53600 : ℤ) : ℚ) = (k : ℚ) + (r : ℚ) / 53600 := by
    rw [hdm]; push_cast; field_simp; ring
  rw [hq]
  by_cases hr0 : r = 0
  · have e : (k : ℚ) + (r : ℚ) / 53600 = ((k : ℤ) : ℚ) := by simp [hr0]
    rw [e, binary64_intCast]
    · unfold truncate
      simp
    · rw [abs_of_nonneg (by positivity)]
      have : k < 2 ^ 53 := by omega
      exact_mod_cast this
  · have hr1 : (1 : ℚ) ≤ (r : ℚ) := by
      have : 1 ≤ r := by omega
      exact_mod_cast this
    have hr2 : (r : ℚ) ≤ 53599 := by
      have : r ≤ 53599 := by omega
      exact_mod_cast this
    apply truncate_binary64_between k _ hk123
    · have := div_le_div_of_nonneg_right hr1 (by norm_num : (0:ℚ) ≤ 53600); linarith
    · have := div_le_div_of_nonneg_right hr2 (by norm_num : (0:ℚ) ≤ 53600); linarith

theorem floor_quotient (n : ℕ) :
    ⌊((n : ℚ) * 100) / 53600⌋ = ((n * 100 / 53600 : ℕ) : ℤ) := by
  have e : ((n : ℚ) * 100) / 53600 = ((n * 100 : ℕ) : ℚ) / ((53600 : ℕ) : ℚ) := by
    push_cast; ring
  rw [e, Rat.floor_natCast_div_natCast]
  norm_cast

/-! ## Discovery -/

theorem startsWith_iff (hay needle : List Char) :
    startsWith hay needle = true ↔ ∃ t, hay = needle ++ t := by
  induction needle generalizing hay with
  | nil => simp [startsWith]
  | cons n ns ih =>
    cases hay with
    | nil => simp [startsWith]
    | cons c cs =>
      simp only [startsWith, Bool.and_eq_true, beq_iff_eq, ih, List.cons_append,
        List.cons.injEq]
      constructor
      · rintro ⟨rfl, t, rfl⟩; exact ⟨t, rfl, rfl⟩
      · rintro ⟨t, rfl, rfl⟩; exact ⟨rfl, t, rfl⟩

/-- The function `wcsstr` returns non-null exactly when `needle` occurs in `hay`. -/
theorem wcsstr_isSome_iff (hay needle : List Char) :
    (wcsstr hay needle).isSome = true ↔ ∃ s t, hay = s ++ needle ++ t := by
  induction hay with
  | nil =>
    unfold wcsstr
    split_ifs with h
    · rw [startsWith_iff] at h
      obtain ⟨t, ht⟩ := h
      simp only [Option.isSome_some, true_iff]
      exact ⟨[], t, by simpa using ht⟩
    · simp only [Option.isSome_none, Bool.false_eq_true, false_iff]
      rintro ⟨s, t, hst⟩
      apply h
      rw [startsWith_iff]
      have h1 : s ++ needle ++ t = [] := hst.symm
      simp only [List.append_eq_nil] at h1
      exact ⟨[], by simp [h1.1.2]⟩
  | cons c cs ih =>
    unfold wcsstr
    split_ifs with h
    · rw [startsWith_iff] at h
      obtain ⟨t, ht⟩ := h
      simp only [Option.isSome_some, true_iff]
      exact ⟨[], t, by simpa using ht⟩
    · rw [ih]
      constructor
      · rintro ⟨s, t, rfl⟩; exact ⟨c :: s, t, by simp⟩
      · rintro ⟨s, t, hst⟩
        cases s with
        | nil =>
          exfalso; apply h; rw [startsWith_iff]
          exact ⟨t, by simpa using hst⟩
        | cons a s =>
          simp only [List.cons_append, List.cons.injEq] at hst
          exact ⟨s, t, by simpa using hst.2⟩

theorem isMonitor_iff (d : hid_device_info) : isMonitor d = true ↔ Qualifies d := by
  unfold isMonitor Qualifies
  rw [Bool.and_eq_true, wcsstr_isSome_iff]
  simp [VENDOR_ID]

theorem monitorPath_eq_none_iff (devices : List hid_device_info) :
    monitorPath devices = none ↔ ∀ d ∈ devices, ¬ Qualifies d := by
  induction devices with
  | nil => simp [monitorPath]
  | cons d ds ih =>
    unfold monitorPath
    split_ifs with h
    · simp only [reduceCtorEq, List.mem_cons, forall_eq_or_imp, false_iff, not_and]
      intro hd; exact absurd ((isMonitor_iff d).1 h) hd
    · rw [ih]
      simp only [List.mem_cons, forall_eq_or_imp, iff_and_self]
      intro _ hq; exact h ((isMonitor_iff d).2 hq)

theorem monitorPath_eq_some_iff (devices : List hid_device_info) (p : String) :
    monitorPath devices = some p ↔
      ∃ before d after, devices = before ++ d :: after ∧ Qualifies d ∧ d.path = p ∧
        ∀ x ∈ before, ¬ Qualifies x := by
  induction devices with
  | nil => simp [monitorPath]
  | cons d ds ih =>
    unfold monitorPath
    split_ifs with h
    · constructor
      · intro hp
        refine ⟨[], d, ds, rfl, (isMonitor_iff d).1 h, ?_, by simp⟩
        simpa using hp
      · rintro ⟨before, x, after, hsplit, hx, hpath, hnone⟩
        cases before with
        | nil =>
          simp only [List.nil_append, List.cons.injEq] at hsplit
          rw [hsplit.1, hpath]
        | cons b bs =>
          simp only [List.cons_append, List.cons.injEq] at hsplit
          exact absurd ((isMonitor_iff d).1 h) (hsplit.1 ▸ hnone b (by simp))
    · rw [ih]
      constructor
      · rintro ⟨before, x, after, rfl, hx, hpath, hnone⟩
        refine ⟨d :: before, x, after, rfl, hx, hpath, ?_⟩
        intro y hy
        rcases List.mem_cons.1 hy with rfl | hy
        · intro hq; exact h ((isMonitor_iff _).2 hq)
        · exact hnone y hy
      · rintro ⟨before, x, after, hsplit, hx, hpath, hnone⟩
        cases before with
        | nil =>
          simp only [List.nil_append, List.cons.injEq] at hsplit
          exact absurd ((isMonitor_iff d).2 (hsplit.1 ▸ hx)) h
        | cons b bs =>
          simp only [List.cons_append, List.cons.injEq] at hsplit
          exact ⟨bs, x, after, hsplit.2, hx, hpath, fun y hy => hnone y (by simp [hy])⟩

/-- Claim C2: the discovery loop returns not-found exactly when no enumerated entry
qualifies, and returns path `p` exactly when the enumeration splits as
`before ++ d :: after` with `d` qualifying, `d.path = p` and no qualifying entry in
`before`; so with one qualifying entry it is that entry's path and with several it is
the earliest one's. -/
theorem discovery_selects_first_match (devices : List hid_device_info) :
    (monitorPath devices = none ↔ ∀ d ∈ devices, ¬ Qualifies d) ∧
    (∀ p, monitorPath devices = some p ↔
      ∃ before d after, devices = before ++ d :: after ∧ Qualifies d ∧ d.path = p ∧
        ∀ x ∈ before, ¬ Qualifies x) :=
  ⟨monitorPath_eq_none_iff devices, monitorPath_eq_some_iff devices⟩

/-! ## Traces and the session -/

theorem openHandles_cons (opened : List Handle) (e : Event) (es : List Event) :
    openHandles opened (e :: es) = openHandles (openHandles opened [e]) es := by
  cases e with
  | hid_open_path p r => cases r <;> rfl
  | _ => rfl

theorem openHandles_append (opened : List Handle) (xs ys : List Event) :
    openHandles opened (xs ++ ys) = openHandles (openHandles opened xs) ys := by
  induction xs generalizing opened with
  | nil => rfl
  | cons e es ih =>
    rw [List.cons_append, openHandles_cons, ih, ← openHandles_cons]

theorem opensOnlyWhenClosed_nil (opened : List Handle) : OpensOnlyWhenClosed opened [] := by
  intro before path result after h
  simp at h

theorem opensOnlyWhenClosed_cons (opened : List Handle) (e : Event) (es : List Event) :
    OpensOnlyWhenClosed opened (e :: es) ↔
      ((∃ p r, e = Event.hid_open_path p r) → opened = []) ∧
        OpensOnlyWhenClosed (openHandles opened [e]) es := by
  constructor
  · intro h
    constructor
    · rintro ⟨p, r, rfl⟩
      exact h [] p r es rfl
    · intro before path result after hsplit
      have := h (e :: before) path result after (by rw [hsplit]; rfl)
      rwa [openHandles_cons] at this
  · rintro ⟨h1, h2⟩ before path result after hsplit
    cases before with
    | nil =>
      simp only [List.nil_append, List.cons.injEq] at hsplit
      exact h1 ⟨path, result, hsplit.1⟩
    | cons b bs =>
      simp only [List.cons_append, List.cons.injEq] at hsplit
      rw [openHandles_cons, ← hsplit.1]
      exact h2 bs path result after hsplit.2

theorem opensOnlyWhenClosed_append (opened : List Handle) (xs ys : List Event) :
    OpensOnlyWhenClosed opened (xs ++ ys) ↔
      OpensOnlyWhenClosed opened xs ∧ OpensOnlyWhenClosed (openHandles opened xs) ys := by
  induction xs generalizing opened with
  | nil => simp [opensOnlyWhenClosed_nil, openHandles]
  | cons e es ih =>
    rw [List.cons_append, opensOnlyWhenClosed_cons, opensOnlyWhenClosed_cons, ih,
      ← openHandles_cons, and_assoc]

theorem closeDevice_deviceHandle (w : World) : (closeDevice w).deviceHandle = none := by
  unfold closeDevice
  cases h : w.deviceHandle <;> simp [h]

theorem closeDevice_trace (w : World) :
    (closeDevice w).trace = w.trace ++ w.deviceHandle.toList.map Event.hid_close := by
  unfold closeDevice
  cases h : w.deviceHandle <;> simp

theorem connectDevice_trace (hid : Hid) (w : World) :
    (connectDevice hid w).1.trace = w.trace ++ Event.hid_enumerate :: connectEvents hid := by
  cases hp : monitorPath hid.enumerate with
  | none => simp [connectDevice, connectEvents, hp]
  | some path =>
    cases ho : hid.open_path path with
    | none => simp [connectDevice, connectEvents, hp, ho]
    | some h =>
      cases hg : hid.get_feature_report h <;>
        simp [connectDevice, connectEvents, hp, ho, getBrightness, hg]

theorem connectDevice_deviceHandle (hid : Hid) (w : World) :
    (connectDevice hid w).1.deviceHandle =
      match monitorPath hid.enumerate with
      | none => w.deviceHandle
      | some path => hid.open_path path := by
  cases hp : monitorPath hid.enumerate with
  | none => simp [connectDevice, hp]
  | some path =>
    cases ho : hid.open_path path with
    | none => simp [connectDevice, hp, ho]
    | some h =>
      cases hg : hid.get_feature_report h <;>
        simp [connectDevice, hp, ho, getBrightness, hg]

theorem connectDevice_outcome (hid : Hid) (w : World) :
    (connectDevice hid w).2 =
      match monitorPath hid.enumerate with
      | none => ConnectionOutcome.NotFound
      | some path =>
        match hid.open_path path with
        | none => ConnectionOutcome.OpenFailed
        | some h =>
          ConnectionOutcome.Connected (sliderPos
            (match hid.get_feature_report h with
              | none => MIN_BRIGHTNESS
              | some bytes => decodeReport bytes)) := by
  cases hp : monitorPath hid.enumerate with
  | none => simp [connectDevice, hp]
  | some path =>
    cases ho : hid.open_path path with
    | none => simp [connectDevice, hp, ho]
    | some h =>
      cases hg : hid.get_feature_report h <;>
        simp [connectDevice, hp, ho, getBrightness, hg]

theorem updateDeviceConnection_trace (hid : Hid) (w : World) :
    (updateDeviceConnection hid w).1.trace =
      w.trace ++ (w.deviceHandle.toList.map Event.hid_close ++
        Event.hid_enumerate :: connectEvents hid) := by
  unfold updateDeviceConnection
  rw [connectDevice_trace, closeDevice_trace, List.append_assoc]

theorem updateDeviceConnection_deviceHandle (hid : Hid) (w : World) :
    (updateDeviceConnection hid w).1.deviceHandle =
      match monitorPath hid.enumerate with
      | none => none
      | some path => hid.open_path path := by
  have h := connectDevice_deviceHandle hid (closeDevice w)
  rw [closeDevice_deviceHandle] at h
  exact h

theorem openHandles_close_all (handle : Option Handle) :
    openHandles handle.toList (handle.toList.map Event.hid_close) = [] := by
  cases handle <;> simp [openHandles]

theorem close_not_mem_connectEvents (hid : Hid) (h : Handle) :
    Event.hid_close h ∉ Event.hid_enumerate :: connectEvents hid := by
  unfold connectEvents
  cases monitorPath hid.enumerate with
  | none => simp
  | some path => cases ho : hid.open_path path <;> simp [ho]

theorem connectEvents_opens_closed (hid : Hid) :
    OpensOnlyWhenClosed [] (Event.hid_enumerate :: connectEvents hid) := by
  unfold connectEvents
  cases monitorPath hid.enumerate with
  | none => simp [opensOnlyWhenClosed_cons, opensOnlyWhenClosed_nil, openHandles]
  | some path =>
    cases ho : hid.open_path path <;>
      simp [ho, opensOnlyWhenClosed_cons, opensOnlyWhenClosed_nil, openHandles]

theorem openHandles_connectEvents (hid : Hid) :
    openHandles [] (Event.hid_enumerate :: connectEvents hid) =
      (match monitorPath hid.enumerate with
        | none => none
        | some path => hid.open_path path).toList := by
  unfold connectEvents
  cases monitorPath hid.enumerate with
  | none => simp [openHandles]
  | some path => cases ho : hid.open_path path <;> simp [ho, openHandles]

theorem closes_opens_closed (opened : List Handle) (handle : Option Handle) :
    OpensOnlyWhenClosed opened (handle.toList.map Event.hid_close) := by
  cases handle <;> simp [opensOnlyWhenClosed_cons, opensOnlyWhenClosed_nil]

theorem setBrightness_trace (hid : Hid) (value : ℕ) (w : World) :
    (setBrightness hid value w).trace =
      w.trace ++ w.deviceHandle.toList.map fun h =>
        Event.hid_send_feature_report h (setReport (value % 2 ^ 16))
          (hid.send_feature_report h (setReport (value % 2 ^ 16))) := by
  cases hd : w.deviceHandle <;> simp [setBrightness, hd]

theorem setBrightness_deviceHandle (hid : Hid) (value : ℕ) (w : World) :
    (setBrightness hid value w).deviceHandle = w.deviceHandle := by
  cases hd : w.deviceHandle <;> simp [setBrightness, hd]

theorem getBrightness_trace (hid : Hid) (w : World) :
    (getBrightness hid w).1.trace =
      w.trace ++ w.deviceHandle.toList.map fun h =>
        Event.hid_get_feature_report h (hid.get_feature_report h) := by
  cases hd : w.deviceHandle with
  | none => simp [getBrightness, hd]
  | some h => cases hg : hid.get_feature_report h <;> simp [getBrightness, hd, hg]

theorem getBrightness_deviceHandle (hid : Hid) (w : World) :
    (getBrightness hid w).1.deviceHandle = w.deviceHandle := by
  cases hd : w.deviceHandle with
  | none => simp [getBrightness, hd]
  | some h => cases hg : hid.get_feature_report h <;> simp [getBrightness, hd, hg]

/-- Every operation preserves the session invariant. -/
theorem sessionInvariant_run (op : Op) (w : World) (hw : SessionInvariant w) :
    SessionInvariant (op.run w) := by
  obtain ⟨h1, h2⟩ := hw
  cases op with
  | refresh hid =>
    simp only [Op.run, SessionInvariant]
    rw [updateDeviceConnection_trace, updateDeviceConnection_deviceHandle]
    constructor
    · rw [openHandles_append, openHandles_append, h1, openHandles_close_all,
        openHandles_connectEvents]
    · rw [opensOnlyWhenClosed_append, opensOnlyWhenClosed_append, h1, openHandles_close_all]
      exact ⟨h2, closes_opens_closed _ _, connectEvents_opens_closed hid⟩
  | get hid =>
    simp only [Op.run, SessionInvariant]
    rw [getBrightness_trace, getBrightness_deviceHandle, openHandles_append,
      opensOnlyWhenClosed_append, h1]
    cases w.deviceHandle <;>
      simp [openHandles, opensOnlyWhenClosed_cons, opensOnlyWhenClosed_nil, h2]
  | set hid value =>
    simp only [Op.run, SessionInvariant]
    rw [setBrightness_trace, setBrightness_deviceHandle, openHandles_append, opensOnlyWhenClosed_append, h1]
    cases w.deviceHandle <;>
      simp [openHandles, opensOnlyWhenClosed_cons, opensOnlyWhenClosed_nil, h2]

theorem sessionInvariant_runOps (ops : List Op) (w : World) (hw : SessionInvariant w) :
    SessionInvariant (runOps ops w) := by
  induction ops generalizing w with
  | nil => exact hw
  | cons op ops ih => exact ih _ (sessionInvariant_run op w hw)

theorem sessionInvariant_initial : SessionInvariant World.initial :=
  ⟨rfl, opensOnlyWhenClosed_nil _⟩

/-- Claim C3: from any state, `updateDeviceConnection` first closes the stored handle and
clears it, and only then makes its other hidapi calls: they contain no close, and
every `hid_open_path` among them happens with no handle of the session open.  Hence
after any sequence of refresh, get and set operations from the initial state the
handles left open are exactly the stored one (at most one), and no `hid_open_path` was
ever made while a handle was open. -/
theorem refresh_closes_before_open :
    (∀ (hid : Hid) (w : World),
      (closeDevice w).deviceHandle = none ∧
      (closeDevice w).trace = w.trace ++ w.deviceHandle.toList.map Event.hid_close ∧
      ∃ rest, (updateDeviceConnection hid w).1.trace = (closeDevice w).trace ++ rest ∧
        (∀ h, Event.hid_close h ∉ rest) ∧
        OpensOnlyWhenClosed w.deviceHandle.toList
          (w.deviceHandle.toList.map Event.hid_close ++ rest)) ∧
    (∀ ops : List Op,
      openHandles [] (runOps ops World.initial).trace =
        (runOps ops World.initial).deviceHandle.toList ∧
      (openHandles [] (runOps ops World.initial).trace).length ≤ 1 ∧
      OpensOnlyWhenClosed [] (runOps ops World.initial).trace) := by
  constructor
  · intro hid w
    refine ⟨closeDevice_deviceHandle w, closeDevice_trace w,
      Event.hid_enumerate :: connectEvents hid, ?_, close_not_mem_connectEvents hid, ?_⟩
    · rw [updateDeviceConnection_trace, closeDevice_trace, List.append_assoc]
    · rw [opensOnlyWhenClosed_append, openHandles_close_all]
      exact ⟨closes_opens_closed _ _, connectEvents_opens_closed hid⟩
  · intro ops
    obtain ⟨h1, h2⟩ := sessionInvariant_runOps ops World.initial sessionInvariant_initial
    refine ⟨h1, ?_, h2⟩
    rw [h1]
    cases (runOps ops World.initial).deviceHandle <;> simp

theorem readBuffer_eq (bytes : List ℕ) :
    readBuffer bytes = [bytes.getD 0 0 % 256, bytes.getD 1 0 % 256, bytes.getD 2 0 % 256,
      bytes.getD 3 0 % 256, bytes.getD 4 0 % 256, bytes.getD 5 0 % 256,
      bytes.getD 6 0 % 256] := by
  simp [readBuffer, List.range, List.range.loop]

theorem decodeReport_eq (bytes : List ℕ) :
    decodeReport bytes = bytes.getD 1 0 % 256 + ((bytes.getD 2 0 % 256) <<< 8) := by
  unfold decodeReport
  rw [readBuffer_eq]
  simp only [List.getD_cons_succ, List.getD_cons_zero, Nat.shiftLeft_eq]
  have h1 := Nat.mod_lt (bytes.getD 1 0) (by norm_num : 256 > 0)
  have h2 := Nat.mod_lt (bytes.getD 2 0) (by norm_num : 256 > 0)
  omega

theorem setReport_eq (v : ℕ) (hv : v < 2 ^ 16) :
    setReport v = [0, v % 256, v / 256, 0, 0, 0, 0] := by
  unfold setReport
  have e1 : v &&& 0x00FF = v % 256 := Nat.and_pow_two_sub_one_eq_mod v 8
  have e2 : (v >>> 8) &&& 0x00FF = (v >>> 8) % 256 := Nat.and_pow_two_sub_one_eq_mod (v >>> 8) 8
  rw [e1, e2, Nat.shiftRight_eq_div_pow]
  have h3 : v / 2 ^ 8 < 256 := by omega
  simp only [List.cons.injEq, and_true, true_and]
  constructor <;> omega

/-- Claim C9: `getBrightness` returns `MIN_BRIGHTNESS = 0x0190` and leaves the state
(trace included) untouched when no handle is stored; returns `MIN_BRIGHTNESS` after
one failed read when the read fails; and after a successful read returns byte 1 plus
byte 2 shifted left by 8 bits. -/
theorem getBrightness_sentinel (hid : Hid) (w : World) :
    MIN_BRIGHTNESS = 0x0190 ∧
    (w.deviceHandle = none → getBrightness hid w = (w, MIN_BRIGHTNESS)) ∧
    (∀ h, w.deviceHandle = some h → hid.get_feature_report h = none →
      getBrightness hid w =
        ({ w with trace := w.trace ++ [Event.hid_get_feature_report h none] },
          MIN_BRIGHTNESS)) ∧
    (∀ h bytes, w.deviceHandle = some h → hid.get_feature_report h = some bytes →
      getBrightness hid w =
        ({ w with trace := w.trace ++ [Event.hid_get_feature_report h (some bytes)] },
          bytes.getD 1 0 % 256 + ((bytes.getD 2 0 % 256) <<< 8))) := by
  refine ⟨rfl, ?_, ?_, ?_⟩
  · intro hd
    simp [getBrightness, hd]
  · intro h hd hg
    simp [getBrightness, hd, hg]
  · intro h bytes hd hg
    simp [getBrightness, hd, hg, decodeReport_eq]

/-- Claim C10: for every 16-bit `v`, `setBrightness v` with handle `h` stored appends
exactly one `hid_send_feature_report` with payload `[0, v mod 256, v div 256, 0, 0, 0, 0]`
and changes nothing else; decoding that payload as `getBrightness` does gives `v`;
with no handle stored the state is unchanged. -/
theorem setBrightness_report (hid : Hid) (w : World) (v : ℕ) (hv : v < 2 ^ 16) :
    (∀ h, w.deviceHandle = some h →
      setBrightness hid v w =
        { w with trace := w.trace ++ [Event.hid_send_feature_report h
            [0x00, v % 256, v / 256, 0, 0, 0, 0]
            (hid.send_feature_report h [0x00, v % 256, v / 256, 0, 0, 0, 0])] }) ∧
    decodeReport [0x00, v % 256, v / 256, 0, 0, 0, 0] = v ∧
    (w.deviceHandle = none → setBrightness hid v w = w) := by
  refine ⟨?_, ?_, ?_⟩
  · intro h hd
    have hm : v % 2 ^ 16 = v := Nat.mod_eq_of_lt hv
    simp only [setBrightness, hd, hm, setReport_eq v hv]
  · rw [decodeReport_eq]
    simp only [List.getD_cons_succ, List.getD_cons_zero, Nat.shiftLeft_eq]
    omega
  · intro hd
    simp [setBrightness, hd]

theorem setBrightness_report_witness :
    setBrightness (scenarioHid []) 0x6A40 openWorld =
      { openWorld with trace := [Event.hid_send_feature_report 7
          [0x00, 0x40, 0x6A, 0, 0, 0, 0] true] } ∧
    decodeReport [0x00, 0x40, 0x6A, 0, 0, 0, 0] = 0x6A40 :=
  ⟨(setBrightness_report (scenarioHid []) openWorld 0x6A40 (by decide)).1 7 rfl,
    (setBrightness_report (scenarioHid []) openWorld 0x6A40 (by decide)).2.1⟩

/-- Claim C8: after `updateDeviceConnection`, from any state and for any transport
behaviour, the outcome is `NotFound` exactly when no enumerated entry qualifies and
`OpenFailed` exactly when the selected path fails to open; in both cases the stored
handle is null, and a handle is stored exactly when the outcome is `Connected`. -/
theorem refresh_session_state (hid : Hid) (w : World) :
    ((updateDeviceConnection hid w).2 = ConnectionOutcome.NotFound ↔
      ∀ d ∈ hid.enumerate, ¬ Qualifies d) ∧
    ((updateDeviceConnection hid w).2 = ConnectionOutcome.OpenFailed ↔
      ∃ path, monitorPath hid.enumerate = some path ∧ hid.open_path path = none) ∧
    ((updateDeviceConnection hid w).2 = ConnectionOutcome.NotFound ∨
      (updateDeviceConnection hid w).2 = ConnectionOutcome.OpenFailed →
        (updateDeviceConnection hid w).1.deviceHandle = none) ∧
    ((updateDeviceConnection hid w).1.deviceHandle.isSome = true ↔
      ∃ percent, (updateDeviceConnection hid w).2 = ConnectionOutcome.Connected percent) := by
  rw [← monitorPath_eq_none_iff, updateDeviceConnection_deviceHandle]
  unfold updateDeviceConnection
  rw [connectDevice_outcome]
  cases hp : monitorPath hid.enumerate with
  | none => simp
  | some path => cases ho : hid.open_path path <;> simp [ho]

theorem sliderPos_endpoints : sliderPos 0x0190 = 0 ∧ sliderPos 0xD2F0 = 100 := by
  decide!

theorem brightnessValue_half : brightnessValue 50 = 0x6A40 := by
  decide!

theorem updateDeviceConnection_outcome (hid : Hid) (w : World) :
    (updateDeviceConnection hid w).2 =
      match monitorPath hid.enumerate with
      | none => ConnectionOutcome.NotFound
      | some path =>
        match hid.open_path path with
        | none => ConnectionOutcome.OpenFailed
        | some h =>
          ConnectionOutcome.Connected (sliderPos
            (match hid.get_feature_report h with
              | none => MIN_BRIGHTNESS
              | some bytes => decodeReport bytes)) := by
  exact connectDevice_outcome hid (closeDevice w)

/-- Claim C4: when `d` is the first qualifying entry of the enumeration, its path
opens as `h` and the read on `h` returns `bytes`, `updateDeviceConnection` ends
connected (handle stored, slider enabled) with the slider position computed from byte 1
plus byte 2 shifted left by 8 bits;
for bytes `[0, 0x90, 0x01, 0, 0, 0, 0]` that is `Connected 0` and for
`[0, 0xF0, 0xD2, 0, 0, 0, 0]` it is `Connected 100`. -/
theorem refresh_connected_percent (hid : Hid) (w : World) (before after : List hid_device_info)
    (d : hid_device_info) (h : Handle) (bytes : List ℕ)
    (henum : hid.enumerate = before ++ d :: after) (hd : Qualifies d)
    (hfirst : ∀ x ∈ before, ¬ Qualifies x)
    (hopen : hid.open_path d.path = some h)
    (hread : hid.get_feature_report h = some bytes) :
    (updateDeviceConnection hid w).2 =
        ConnectionOutcome.Connected
          (sliderPos (bytes.getD 1 0 % 256 + ((bytes.getD 2 0 % 256) <<< 8))) ∧
      (updateDeviceConnection hid w).1.deviceHandle = some h ∧
      (updateDeviceConnection hid w).1.sliderEnabled = true ∧
      (updateDeviceConnection hid w).1.sliderPosition =
        sliderPos (bytes.getD 1 0 % 256 + ((bytes.getD 2 0 % 256) <<< 8)) ∧
      (bytes = [0, 0x90, 0x01, 0, 0, 0, 0] →
        (updateDeviceConnection hid w).2 = ConnectionOutcome.Connected 0) ∧
      (bytes = [0, 0xF0, 0xD2, 0, 0, 0, 0] →
        (updateDeviceConnection hid w).2 = ConnectionOutcome.Connected 100) := by
  have hpath : monitorPath hid.enumerate = some d.path :=
    (monitorPath_eq_some_iff _ _).2 ⟨before, d, after, henum, hd, rfl, hfirst⟩
  have hout : (updateDeviceConnection hid w).2 =
      ConnectionOutcome.Connected (sliderPos (decodeReport bytes)) := by
    rw [updateDeviceConnection_outcome]
    simp only [hpath, hopen, hread]
  refine ⟨?_, ?_, ?_, ?_, ?_, ?_⟩
  · rw [hout, decodeReport_eq]
  · rw [updateDeviceConnection_deviceHandle]
    simp only [hpath, hopen]
  · simp [updateDeviceConnection, connectDevice, hpath, hopen, getBrightness, hread]
  · simp [updateDeviceConnection, connectDevice, hpath, hopen, getBrightness, hread,
      decodeReport_eq]
  · intro hb
    rw [hout, hb]
    have : decodeReport [0, 0x90, 0x01, 0, 0, 0, 0] = 0x0190 := by decide
    rw [this, sliderPos_endpoints.1]
  · intro hb
    rw [hout, hb]
    have : decodeReport [0, 0xF0, 0xD2, 0, 0, 0, 0] = 0xD2F0 := by decide
    rw [this, sliderPos_endpoints.2]

theorem scenario_qualifies : Qualifies
    { path := "P1", vendor_id := 0x043E, product_string := "LG BRIGHTNESS ABC".toList } :=
  ⟨rfl, "LG ".toList, " ABC".toList, by decide⟩

theorem refresh_connected_percent_witness :
    (updateDeviceConnection (scenarioHid [0, 0x90, 0x01, 0, 0, 0, 0]) World.initial).2 =
        ConnectionOutcome.Connected 0 ∧
      (updateDeviceConnection (scenarioHid [0, 0xF0, 0xD2, 0, 0, 0, 0]) World.initial).2 =
        ConnectionOutcome.Connected 100 :=
  ⟨(refresh_connected_percent (scenarioHid [0, 0x90, 0x01, 0, 0, 0, 0]) World.initial [] []
      { path := "P1", vendor_id := 0x043E, product_string := "LG BRIGHTNESS ABC".toList }
      1 [0, 0x90, 0x01, 0, 0, 0, 0] rfl scenario_qualifies (by simp) rfl rfl).2.2.2.2.1 rfl,
   (refresh_connected_percent (scenarioHid [0, 0xF0, 0xD2, 0, 0, 0, 0]) World.initial [] []
      { path := "P1", vendor_id := 0x043E, product_string := "LG BRIGHTNESS ABC".toList }
      1 [0, 0xF0, 0xD2, 0, 0, 0, 0] rfl scenario_qualifies (by simp) rfl rfl).2.2.2.2.2 rfl⟩

/-- Claim C5, counterexample: slider position 50 does not give the native value
`0x6BC0`, and with handle 7 stored the calls made are not the single report
`[0, 0xC0, 0x6B, 0, 0, 0, 0]`. -/
theorem hscroll_half_not_6BC0 :
    brightnessValue 50 ≠ 0x6BC0 ∧
      (onHScroll (scenarioHid []) 50 openWorld).trace ≠
        [Event.hid_send_feature_report 7 [0, 0xC0, 0x6B, 0, 0, 0, 0] true] := by
  decide!

/-- Claim C5, amended: with handle `h` stored, slider position 50 gives the native value
`0x6A40 = 0.5 * (0xD2F0 - 0x0190) + 0x0190` and sends the 7-byte report
`[0, 0x40, 0x6A, 0, 0, 0, 0]`. -/
theorem hscroll_half_report (hid : Hid) (w : World) (h : Handle)
    (hopen : w.deviceHandle = some h) :
    brightnessValue 50 = 0x6A40 ∧
      (onHScroll hid 50 w).trace = w.trace ++ [Event.hid_send_feature_report h
        [0, 0x40, 0x6A, 0, 0, 0, 0]
        (hid.send_feature_report h [0, 0x40, 0x6A, 0, 0, 0, 0])] := by
  refine ⟨brightnessValue_half, ?_⟩
  unfold onHScroll
  simp only
  rw [setBrightness_trace, brightnessValue_half, hopen]
  have : setReport (0x6A40 % 2 ^ 16) = [0, 0x40, 0x6A, 0, 0, 0, 0] := by decide
  rw [this]
  rfl

theorem hscroll_half_report_witness :
    brightnessValue 50 = 0x6A40 ∧
      (onHScroll (scenarioHid []) 50 openWorld).trace =
        [Event.hid_send_feature_report 7 [0, 0x40, 0x6A, 0, 0, 0, 0] true] :=
  hscroll_half_report (scenarioHid []) openWorld 7 rfl

/-! ## Range conversions -/

/-- The native value for every slider position: `536 * n + 400`, one less at 29, 57
and 58, where the `double` result falls just below the integer. -/
theorem brightnessValue_table : ∀ n ∈ List.range 101,
    brightnessValue (n : ℤ) = 536 * n + 400 - (if n = 29 ∨ n = 57 ∨ n = 58 then 1 else 0) := by
  decide!

theorem roundtrip_table : ∀ n ∈ List.range 101,
    |sliderPos (brightnessValue (n : ℤ)) - (n : ℤ)| ≤ 1 := by
  decide!

theorem brightnessValue_eq (p : ℤ) (h0 : 0 ≤ p) (h1 : p ≤ 100) :
    brightnessValue p = 536 * p.toNat + 400 -
      (if p.toNat = 29 ∨ p.toNat = 57 ∨ p.toNat = 58 then 1 else 0) := by
  obtain ⟨n, rfl⟩ := Int.eq_ofNat_of_zero_le h0
  have hn : n ∈ List.range 101 := by simp only [List.mem_range]; omega
  simpa using brightnessValue_table n hn

/-- Claim C1: for every slider position `percent` in `[0, 100]`, converting it to the
native value as the `WM_HSCROLL` handler does and converting that value back as
`updateDeviceConnection` does gives a position within 1 of `percent`. -/
theorem roundtrip_within_one (percent : ℤ) (h0 : 0 ≤ percent) (h1 : percent ≤ 100) :
    |sliderPos (brightnessValue percent) - percent| ≤ 1 := by
  obtain ⟨n, rfl⟩ := Int.eq_ofNat_of_zero_le h0
  have hn : n ∈ List.range 101 := by simp only [List.mem_range]; omega
  exact roundtrip_table n hn

theorem roundtrip_within_one_witness :
    sliderPos (brightnessValue 29) = 28 ∧ |sliderPos (brightnessValue 29) - 29| ≤ 1 :=
  ⟨by decide!, roundtrip_within_one 29 (by decide) (by decide)⟩

/-- Claim C7: on slider positions `0 ≤ p ≤ q ≤ 100` the native value computed by the
`WM_HSCROLL` handler is monotonic non-decreasing and lies in
`[MIN_BRIGHTNESS, MAX_BRIGHTNESS]`. -/
theorem brightnessValue_monotone_in_range (p q : ℤ) (h0 : 0 ≤ p) (hpq : p ≤ q)
    (h1 : q ≤ 100) :
    brightnessValue p ≤ brightnessValue q ∧
      MIN_BRIGHTNESS ≤ brightnessValue p ∧ brightnessValue p ≤ MAX_BRIGHTNESS ∧
      MIN_BRIGHTNESS ≤ brightnessValue q ∧ brightnessValue q ≤ MAX_BRIGHTNESS := by
  rw [brightnessValue_eq p h0 (by omega), brightnessValue_eq q (by omega) h1]
  simp only [MIN_BRIGHTNESS, MAX_BRIGHTNESS]
  have hp : p.toNat ≤ q.toNat := by omega
  have hq : q.toNat ≤ 100 := by omega
  split_ifs <;> omega

theorem brightnessValue_monotone_in_range_witness :
    brightnessValue 28 ≤ brightnessValue 29 ∧
      MIN_BRIGHTNESS ≤ brightnessValue 28 ∧ brightnessValue 28 ≤ MAX_BRIGHTNESS ∧
      MIN_BRIGHTNESS ≤ brightnessValue 29 ∧ brightnessValue 29 ≤ MAX_BRIGHTNESS :=
  brightnessValue_monotone_in_range 28 29 (by decide) (by decide) (by decide)

/-- Claim C6, counterexample: for the native value 935, inside
`[MIN_BRIGHTNESS, MAX_BRIGHTNESS]`, `updateDeviceConnection` computes position 0, while
the formula with rounding to nearest gives 1. -/
theorem sliderPos_not_rounded : MIN_BRIGHTNESS ≤ 935 ∧ 935 ≤ MAX_BRIGHTNESS ∧
    sliderPos 935 = 0 ∧ specPercent 935 = 1 ∧ sliderPos 935 ≠ specPercent 935 := by
  decide!

/-- Claim C6, amended: for every native value `b` in `[MIN_BRIGHTNESS, MAX_BRIGHTNESS]`
the position `updateDeviceConnection` computes is
`clamp(floor((b - MIN_BRIGHTNESS) * 100 / (MAX_BRIGHTNESS - MIN_BRIGHTNESS)), 0, 100)`:
the quotient is truncated, not rounded to nearest. -/
theorem sliderPos_eq_floor (b : ℕ) (hlo : MIN_BRIGHTNESS ≤ b) (hhi : b ≤ MAX_BRIGHTNESS) :
    sliderPos b =
      max 0 (min ⌊(((b : ℚ) - MIN_BRIGHTNESS) * 100) / ((MAX_BRIGHTNESS : ℚ) - MIN_BRIGHTNESS)⌋
        100) := by
  simp only [MIN_BRIGHTNESS, MAX_BRIGHTNESS] at hlo hhi
  obtain ⟨n, rfl⟩ : ∃ n, b = n + 400 := ⟨b - 400, by omega⟩
  have hn : n ≤ 53600 := by omega
  have e1 : (((n + 400 : ℕ) : ℚ) - (MIN_BRIGHTNESS : ℚ)) * 100 /
      ((MAX_BRIGHTNESS : ℚ) - MIN_BRIGHTNESS) = ((n : ℚ) * 100) / 53600 := by
    simp only [MIN_BRIGHTNESS, MAX_BRIGHTNESS]; push_cast; norm_num
  rw [e1, floor_quotient]
  unfold sliderPos
  simp only
  have e0 : (n + 400) % 2 ^ 16 = n + 400 := Nat.mod_eq_of_lt (by omega)
  have e2 : (((n + 400 : ℕ) : ℤ) - (MIN_BRIGHTNESS : ℤ)) = (n : ℤ) := by
    simp only [MIN_BRIGHTNESS]; push_cast; ring
  have e3 : ((MAX_BRIGHTNESS : ℤ) - (MIN_BRIGHTNESS : ℤ)) = 53600 := by
    simp only [MIN_BRIGHTNESS, MAX_BRIGHTNESS]; norm_num
  rw [e0, e2, e3, truncate_quotient n (by omega)]

theorem sliderPos_eq_floor_witness : sliderPos 935 =
    max 0 (min ⌊(((935 : ℕ) : ℚ) - MIN_BRIGHTNESS) * 100 / ((MAX_BRIGHTNESS : ℚ) - MIN_BRIGHTNESS)⌋
      100) :=
  sliderPos_eq_floor 935 (by decide) (by decide)

end LGUltrafine
